import Mathlib

/-!
Verification of the currency exchange calculator
(src/client/src/lib/calculator.ts).

The calculator is a pure function over JavaScript numbers; we embed the
arithmetic over the rationals `ℚ`.  `Math.round x` is modelled as
`⌊x + 1/2⌋` (JavaScript rounds halves toward positive infinity).  Array
index mutation (`bankComparisons[bestIdx].isBest = true`) is modelled by a
structural pass that rebuilds the list, updating exactly the given index,
and the `find(..) || null` idiom by `List.find?` into `Option`.
-/

namespace Calculator

/-- Bank rate record (interface BankRate). -/
structure BankRate where
  name : String
  usdToTwdRate : ℚ
  audToTwdRate : ℚ
  inFeeNtd : ℚ
  deriving Repr, DecidableEq

/-- Calculation input record (interface CalculationInput). -/
structure CalculationInput where
  audAmount : ℚ
  audFeeNtd : ℚ
  audToUsdRate : ℚ
  deriving Repr, DecidableEq

/-- Per-bank comparison record (interface BankComparison). -/
structure BankComparison where
  bankName : String
  usdToTwdRate : ℚ
  audToTwdRate : ℚ
  inFeeNtd : ℚ
  usdToTwdAmount : ℚ
  audToTwdAmount : ℚ
  difference : ℚ
  isBest : Bool
  isWorst : Bool
  deriving Repr, DecidableEq

/-- Overall result record (interface CalculationResult).  The nullable
`bestBank` / `worstBank` fields become `Option`. -/
structure CalculationResult where
  audNetAmount : ℚ
  usdAmount : ℚ
  usdFeeNtd : ℚ
  usdNetAmount : ℚ
  bankComparisons : List BankComparison
  bestBank : Option BankComparison
  worstBank : Option BankComparison
  deriving Repr, DecidableEq

/-- JavaScript Math.round: round to the nearest integer, halves toward
positive infinity. -/
def mathRound (x : ℚ) : ℤ := ⌊x + 1/2⌋

/-- The rounding idiom Math.round (x * 100) / 100 used for every monetary
output of the calculator. -/
def round2 (x : ℚ) : ℚ := (mathRound (x * 100) : ℚ) / 100

/-- Default comparison record, used only as the out-of-range default of
list lookups in statements. -/
def dfltComp : BankComparison :=
  { bankName := ""
    usdToTwdRate := 0
    audToTwdRate := 0
    inFeeNtd := 0
    usdToTwdAmount := 0
    audToTwdAmount := 0
    difference := 0
    isBest := false
    isWorst := false }

/-- Default bank record, used only as the out-of-range default of list
lookups in statements. -/
def dfltBank : BankRate :=
  { name := "", usdToTwdRate := 0, audToTwdRate := 0, inFeeNtd := 0 }

/-- Body of the banks.map callback in calculateExchange (lines 75-91):
the per-bank comparison record, flags initialised to false. -/
def mkComparison (usdNetAmount audNetAmount : ℚ) (bank : BankRate) :
    BankComparison :=
  let usdToTwdAmount := usdNetAmount * bank.usdToTwdRate + bank.inFeeNtd
  let audToTwdAmount := audNetAmount * bank.audToTwdRate + bank.inFeeNtd
  let difference := usdToTwdAmount - audToTwdAmount
  { bankName := bank.name
    usdToTwdRate := bank.usdToTwdRate
    audToTwdRate := bank.audToTwdRate
    inFeeNtd := bank.inFeeNtd
    usdToTwdAmount := round2 usdToTwdAmount
    audToTwdAmount := round2 audToTwdAmount
    difference := round2 difference
    isBest := false
    isWorst := false }

/-- The best-index loop (lines 98-101): starting from index i with current
best index bIdx holding value bVal, replace the running best exactly when
the next value is strictly greater. -/
def scanBest (i bIdx : Nat) (bVal : ℚ) : List ℚ → Nat
  | [] => bIdx
  | v :: rest =>
      if bVal < v then scanBest (i + 1) i v rest
      else scanBest (i + 1) bIdx bVal rest

/-- The worst-index loop (lines 98, 102-104): replace the running worst
exactly when the next value is strictly smaller. -/
def scanWorst (i wIdx : Nat) (wVal : ℚ) : List ℚ → Nat
  | [] => wIdx
  | v :: rest =>
      if v < wVal then scanWorst (i + 1) i v rest
      else scanWorst (i + 1) wIdx wVal rest

/-- Index of the first maximal value: bestIdx starts at 0 and the loop
runs from index 1. -/
def bestIdxOf : List ℚ → Nat
  | [] => 0
  | v :: rest => scanBest 1 0 v rest

/-- Index of the first minimal value: worstIdx starts at 0 and the loop
runs from index 1. -/
def worstIdxOf : List ℚ → Nat
  | [] => 0
  | v :: rest => scanWorst 1 0 v rest

/-- Effect of the two flag assignments on the single entry at position i:
set isBest when i = b and isWorst when i = w, leave the record otherwise
unchanged. -/
def flagAt (b w i : Nat) (c : BankComparison) : BankComparison :=
  let c1 := if i = b then { c with isBest := true } else c
  if i = w then { c1 with isWorst := true } else c1

/-- The two flag assignments bankComparisons[bestIdx].isBest = true and
bankComparisons[worstIdx].isWorst = true (lines 107-108), as a structural
pass that rewrites exactly the entries at indices b and w, counting
positions from i. -/
def setFlags (b w i : Nat) : List BankComparison → List BankComparison
  | [] => []
  | c :: rest => flagAt b w i c :: setFlags b w (i + 1) rest

/-- calculateExchange (lines 58-120). -/
def calculateExchange (input : CalculationInput) (banks : List BankRate) :
    CalculationResult :=
  let audNetAmount := input.audAmount - input.audFeeNtd
  let usdAmount := audNetAmount * input.audToUsdRate
  let usdFeeNtd := input.audFeeNtd * input.audToUsdRate
  let usdNetAmount := usdAmount - usdFeeNtd
  let bankComparisons := banks.map (mkComparison usdNetAmount audNetAmount)
  let flagged :=
    if 0 < bankComparisons.length then
      setFlags (bestIdxOf (bankComparisons.map (·.audToTwdAmount)))
        (worstIdxOf (bankComparisons.map (·.audToTwdAmount))) 0 bankComparisons
    else bankComparisons
  { audNetAmount := round2 audNetAmount
    usdAmount := round2 usdAmount
    usdFeeNtd := round2 usdFeeNtd
    usdNetAmount := round2 usdNetAmount
    bankComparisons := flagged
    bestBank := flagged.find? (·.isBest)
    worstBank := flagged.find? (·.isWorst) }

/-- Raw (pre-rounding) net source amount, step 1 of the formula. -/
def audNetRaw (input : CalculationInput) : ℚ :=
  input.audAmount - input.audFeeNtd

/-- Raw (pre-rounding) net intermediary amount, steps 2-4 of the formula. -/
def usdNetRaw (input : CalculationInput) : ℚ :=
  audNetRaw input * input.audToUsdRate - input.audFeeNtd * input.audToUsdRate

/-- Replacing the fee field of the bank at position i, leaving every other
bank and every other field unchanged. -/
def updateFee : List BankRate → Nat → ℚ → List BankRate
  | [], _, _ => []
  | b :: rest, 0, f => { b with inFeeNtd := f } :: rest
  | b :: rest, Nat.succ i, f => b :: updateFee rest i f

/-- Forgetting the two selection flags of a comparison record. -/
def eraseFlags (c : BankComparison) : BankComparison :=
  { c with isBest := false, isWorst := false }

/-- Input of the end-to-end example: amount 2000, fee 8, rate 0.6545. -/
def c2input : CalculationInput := { audAmount := 2000, audFeeNtd := 8, audToUsdRate := 0.6545 }

/-- Bank of the end-to-end example: rates 31.553 and 21.883, fee 0. -/
def c2bank : BankRate :=
  { name := "A", usdToTwdRate := 31.553, audToTwdRate := 21.883, inFeeNtd := 0 }

/-- Input producing a raw net source amount of -12.345. -/
def c3input : CalculationInput := { audAmount := 0, audFeeNtd := 12.345, audToUsdRate := 0 }

/-- Input with no fee and unit conversion rate, for concrete two-bank tests. -/
def unitInput : CalculationInput := { audAmount := 1, audFeeNtd := 0, audToUsdRate := 1 }

/-- Test bank with direct-path rate 1. -/
def bankRate1 : BankRate := { name := "A", usdToTwdRate := 0, audToTwdRate := 1, inFeeNtd := 0 }

/-- Test bank with direct-path rate 2. -/
def bankRate2 : BankRate := { name := "B", usdToTwdRate := 0, audToTwdRate := 2, inFeeNtd := 0 }

/-- Test bank with direct-path rate 10.001: raw total 10.001 rounds to 10. -/
def bankRateLow : BankRate :=
  { name := "A", usdToTwdRate := 0, audToTwdRate := 10.001, inFeeNtd := 0 }

/-- Test bank with direct-path rate 10.002: raw total 10.002 also rounds to 10. -/
def bankRateHigh : BankRate :=
  { name := "B", usdToTwdRate := 0, audToTwdRate := 10.002, inFeeNtd := 0 }

/-! ### Properties of flagAt and setFlags -/

theorem isBest_flagAt (b w i : Nat) (c : BankComparison) :
    (flagAt b w i c).isBest = if i = b then true else c.isBest := by
  by_cases h1 : i = b
  · subst h1
    by_cases h2 : i = w
    · subst h2; simp [flagAt]
    · simp [flagAt, h2]
  · by_cases h2 : i = w
    · subst h2; simp [flagAt, h1]
    · simp [flagAt, h1, h2]

theorem isWorst_flagAt (b w i : Nat) (c : BankComparison) :
    (flagAt b w i c).isWorst = if i = w then true else c.isWorst := by
  by_cases h1 : i = b
  · subst h1
    by_cases h2 : i = w
    · subst h2; simp [flagAt]
    · simp [flagAt, h2]
  · by_cases h2 : i = w
    · subst h2; simp [flagAt, h1]
    · simp [flagAt, h1, h2]

theorem audToTwd_flagAt (b w i : Nat) (c : BankComparison) :
    (flagAt b w i c).audToTwdAmount = c.audToTwdAmount := by
  by_cases h1 : i = b
  · subst h1
    by_cases h2 : i = w
    · subst h2; simp [flagAt]
    · simp [flagAt, h2]
  · by_cases h2 : i = w
    · subst h2; simp [flagAt, h1]
    · simp [flagAt, h1, h2]

theorem eraseFlags_flagAt (b w i : Nat) (c : BankComparison) :
    eraseFlags (flagAt b w i c) = eraseFlags c := by
  by_cases h1 : i = b
  · subst h1
    by_cases h2 : i = w
    · subst h2; simp [flagAt, eraseFlags]
    · simp [flagAt, eraseFlags, h2]
  · by_cases h2 : i = w
    · subst h2; simp [flagAt, eraseFlags, h1]
    · simp [flagAt, eraseFlags, h1, h2]

theorem length_setFlags (b w : Nat) :
    ∀ (l : List BankComparison) (i : Nat), (setFlags b w i l).length = l.length := by
  intro l
  induction l with
  | nil => intro i; rfl
  | cons c rest ih => intro i; simp [setFlags, ih]

theorem map_eraseFlags_setFlags (b w : Nat) :
    ∀ (l : List BankComparison) (i : Nat),
      (setFlags b w i l).map eraseFlags = l.map eraseFlags := by
  intro l
  induction l with
  | nil => intro i; rfl
  | cons c rest ih => intro i; simp [setFlags, eraseFlags_flagAt, ih]

theorem getD_setFlags_field (b w : Nat) (f : BankComparison → ℚ)
    (hf : ∀ b2 w2 i c, f (flagAt b2 w2 i c) = f c) :
    ∀ (l : List BankComparison) (i j : Nat),
      f ((setFlags b w i l).getD j dfltComp) = f (l.getD j dfltComp) := by
  intro l
  induction l with
  | nil => intro i j; rfl
  | cons c rest ih =>
      intro i j
      cases j with
      | zero => simpa [setFlags] using hf b w i c
      | succ j => simpa [setFlags] using ih (i + 1) j

theorem eraseFlags_getD_setFlags (b w : Nat) :
    ∀ (l : List BankComparison) (i j : Nat),
      eraseFlags ((setFlags b w i l).getD j dfltComp)
        = eraseFlags (l.getD j dfltComp) := by
  intro l
  induction l with
  | nil => intro i j; rfl
  | cons c rest ih =>
      intro i j
      cases j with
      | zero => simpa [setFlags] using eraseFlags_flagAt b w i c
      | succ j => simpa [setFlags] using ih (i + 1) j

theorem isBest_getD_setFlags (b w : Nat) :
    ∀ (l : List BankComparison) (i j : Nat), j < l.length →
      ((setFlags b w i l).getD j dfltComp).isBest
        = if i + j = b then true else (l.getD j dfltComp).isBest := by
  intro l
  induction l with
  | nil => intro i j hj; exact absurd hj (Nat.not_lt_zero j)
  | cons c rest ih =>
      intro i j hj
      cases j with
      | zero => simpa [setFlags] using isBest_flagAt b w i c
      | succ j =>
          have hj2 : j < rest.length := Nat.lt_of_succ_lt_succ hj
          have harith : i + (j + 1) = i + 1 + j := by omega
          simpa [setFlags, harith] using ih (i + 1) j hj2

theorem isWorst_getD_setFlags (b w : Nat) :
    ∀ (l : List BankComparison) (i j : Nat), j < l.length →
      ((setFlags b w i l).getD j dfltComp).isWorst
        = if i + j = w then true else (l.getD j dfltComp).isWorst := by
  intro l
  induction l with
  | nil => intro i j hj; exact absurd hj (Nat.not_lt_zero j)
  | cons c rest ih =>
      intro i j hj
      cases j with
      | zero => simpa [setFlags] using isWorst_flagAt b w i c
      | succ j =>
          have hj2 : j < rest.length := Nat.lt_of_succ_lt_succ hj
          have harith : i + (j + 1) = i + 1 + j := by omega
          simpa [setFlags, harith] using ih (i + 1) j hj2

theorem countP_isBest_setFlags (b w : Nat) :
    ∀ (l : List BankComparison) (i : Nat), (∀ c ∈ l, c.isBest = false) →
      (setFlags b w i l).countP (·.isBest)
        = if i ≤ b ∧ b < i + l.length then 1 else 0 := by
  intro l
  induction l with
  | nil =>
      intro i _
      simp only [setFlags, List.countP_nil, List.length_nil]
      split
      · omega
      · rfl
  | cons c rest ih =>
      intro i hflags
      have hc : c.isBest = false := hflags c (List.mem_cons_self c rest)
      have hrest : ∀ x ∈ rest, x.isBest = false :=
        fun x hx => hflags x (List.mem_cons_of_mem c hx)
      simp only [setFlags, List.countP_cons, ih (i + 1) hrest, isBest_flagAt, hc,
        List.length_cons]
      rcases eq_or_ne i b with hib | hib
      · subst hib
        rw [if_pos rfl]
        rw [if_neg (by omega : ¬(i + 1 ≤ i ∧ i < i + 1 + rest.length))]
        rw [if_pos (by omega : i ≤ i ∧ i < i + (rest.length + 1))]
        simp
      · rw [if_neg hib]
        have hiff : (i + 1 ≤ b ∧ b < i + 1 + rest.length) ↔
            (i ≤ b ∧ b < i + (rest.length + 1)) := by omega
        simp [hiff]

theorem countP_isWorst_setFlags (b w : Nat) :
    ∀ (l : List BankComparison) (i : Nat), (∀ c ∈ l, c.isWorst = false) →
      (setFlags b w i l).countP (·.isWorst)
        = if i ≤ w ∧ w < i + l.length then 1 else 0 := by
  intro l
  induction l with
  | nil =>
      intro i _
      simp only [setFlags, List.countP_nil, List.length_nil]
      split
      · omega
      · rfl
  | cons c rest ih =>
      intro i hflags
      have hc : c.isWorst = false := hflags c (List.mem_cons_self c rest)
      have hrest : ∀ x ∈ rest, x.isWorst = false :=
        fun x hx => hflags x (List.mem_cons_of_mem c hx)
      simp only [setFlags, List.countP_cons, ih (i + 1) hrest, isWorst_flagAt, hc,
        List.length_cons]
      rcases eq_or_ne i w with hiw | hiw
      · subst hiw
        rw [if_pos rfl]
        rw [if_neg (by omega : ¬(i + 1 ≤ i ∧ i < i + 1 + rest.length))]
        rw [if_pos (by omega : i ≤ i ∧ i < i + (rest.length + 1))]
        simp
      · rw [if_neg hiw]
        have hiff : (i + 1 ≤ w ∧ w < i + 1 + rest.length) ↔
            (i ≤ w ∧ w < i + (rest.length + 1)) := by omega
        simp [hiff]

/-! ### Specification of the best/worst scan loops -/

theorem scanBest_spec :
    ∀ (l pre : List ℚ) (b : Nat) (v : ℚ),
      b < pre.length → pre.getD b 0 = v →
      (∀ k, k < pre.length → pre.getD k 0 ≤ v) →
      (∀ k, k < b → pre.getD k 0 < v) →
      scanBest pre.length b v l < pre.length + l.length ∧
      (∀ k, k < pre.length + l.length →
        (pre ++ l).getD k 0 ≤ (pre ++ l).getD (scanBest pre.length b v l) 0) ∧
      (∀ k, k < scanBest pre.length b v l →
        (pre ++ l).getD k 0 < (pre ++ l).getD (scanBest pre.length b v l) 0) := by
  intro l
  induction l with
  | nil =>
      intro pre b v hb hv hmax hfirst
      simp only [scanBest, List.append_nil, List.length_nil, Nat.add_zero]
      refine ⟨hb, fun k hk => ?_, fun k hk => ?_⟩
      · rw [hv]; exact hmax k hk
      · rw [hv]; exact hfirst k hk
  | cons v2 rest ih =>
      intro pre b v hb hv hmax hfirst
      have hpre1 : (pre ++ [v2]).length = pre.length + 1 := by simp
      have hgetD_new : (pre ++ [v2]).getD pre.length 0 = v2 := by
        rw [List.getD_append_right pre [v2] 0 pre.length (Nat.le_refl _)]
        simp
      have hgetD_old : ∀ k, k < pre.length → (pre ++ [v2]).getD k 0 = pre.getD k 0 :=
        fun k hk => List.getD_append pre [v2] 0 k hk
      have happ : (pre ++ [v2]) ++ rest = pre ++ (v2 :: rest) := by
        rw [List.append_assoc]; rfl
      have hlen2 : pre.length + (v2 :: rest).length = pre.length + 1 + rest.length := by
        simp; omega
      simp only [scanBest]
      by_cases hlt : v < v2
      · rw [if_pos hlt]
        have hkey := ih (pre ++ [v2]) pre.length v2
          (by rw [hpre1]; omega)
          hgetD_new
          (by
            intro k hk
            rw [hpre1] at hk
            rcases Nat.lt_succ_iff_lt_or_eq.mp hk with h | h
            · rw [hgetD_old k h]
              exact le_of_lt (lt_of_le_of_lt (hmax k h) hlt)
            · subst h; rw [hgetD_new])
          (by
            intro k hk
            rw [hgetD_old k hk]
            exact lt_of_le_of_lt (hmax k hk) hlt)
        rw [hpre1, happ] at hkey
        rw [hlen2]
        exact hkey
      · rw [if_neg hlt]
        have hle : v2 ≤ v := le_of_not_lt hlt
        have hkey := ih (pre ++ [v2]) b v
          (by rw [hpre1]; omega)
          (by rw [hgetD_old b hb]; exact hv)
          (by
            intro k hk
            rw [hpre1] at hk
            rcases Nat.lt_succ_iff_lt_or_eq.mp hk with h | h
            · rw [hgetD_old k h]; exact hmax k h
            · subst h; rw [hgetD_new]; exact hle)
          (by
            intro k hk
            rw [hgetD_old k (Nat.lt_trans hk hb)]
            exact hfirst k hk)
        rw [hpre1, happ] at hkey
        rw [hlen2]
        exact hkey

theorem scanWorst_spec :
    ∀ (l pre : List ℚ) (b : Nat) (v : ℚ),
      b < pre.length → pre.getD b 0 = v →
      (∀ k, k < pre.length → v ≤ pre.getD k 0) →
      (∀ k, k < b → v < pre.getD k 0) →
      scanWorst pre.length b v l < pre.length + l.length ∧
      (∀ k, k < pre.length + l.length →
        (pre ++ l).getD (scanWorst pre.length b v l) 0 ≤ (pre ++ l).getD k 0) ∧
      (∀ k, k < scanWorst pre.length b v l →
        (pre ++ l).getD (scanWorst pre.length b v l) 0 < (pre ++ l).getD k 0) := by
  intro l
  induction l with
  | nil =>
      intro pre b v hb hv hmin hfirst
      simp only [scanWorst, List.append_nil, List.length_nil, Nat.add_zero]
      refine ⟨hb, fun k hk => ?_, fun k hk => ?_⟩
      · rw [hv]; exact hmin k hk
      · rw [hv]; exact hfirst k hk
  | cons v2 rest ih =>
      intro pre b v hb hv hmin hfirst
      have hpre1 : (pre ++ [v2]).length = pre.length + 1 := by simp
      have hgetD_new : (pre ++ [v2]).getD pre.length 0 = v2 := by
        rw [List.getD_append_right pre [v2] 0 pre.length (Nat.le_refl _)]
        simp
      have hgetD_old : ∀ k, k < pre.length → (pre ++ [v2]).getD k 0 = pre.getD k 0 :=
        fun k hk => List.getD_append pre [v2] 0 k hk
      have happ : (pre ++ [v2]) ++ rest = pre ++ (v2 :: rest) := by
        rw [List.append_assoc]; rfl
      have hlen2 : pre.length + (v2 :: rest).length = pre.length + 1 + rest.length := by
        simp; omega
      simp only [scanWorst]
      by_cases hlt : v2 < v
      · rw [if_pos hlt]
        have hkey := ih (pre ++ [v2]) pre.length v2
          (by rw [hpre1]; omega)
          hgetD_new
          (by
            intro k hk
            rw [hpre1] at hk
            rcases Nat.lt_succ_iff_lt_or_eq.mp hk with h | h
            · rw [hgetD_old k h]
              exact le_of_lt (lt_of_lt_of_le hlt (hmin k h))
            · subst h; rw [hgetD_new])
          (by
            intro k hk
            rw [hgetD_old k hk]
            exact lt_of_lt_of_le hlt (hmin k hk))
        rw [hpre1, happ] at hkey
        rw [hlen2]
        exact hkey
      · rw [if_neg hlt]
        have hle : v ≤ v2 := le_of_not_lt hlt
        have hkey := ih (pre ++ [v2]) b v
          (by rw [hpre1]; omega)
          (by rw [hgetD_old b hb]; exact hv)
          (by
            intro k hk
            rw [hpre1] at hk
            rcases Nat.lt_succ_iff_lt_or_eq.mp hk with h | h
            · rw [hgetD_old k h]; exact hmin k h
            · subst h; rw [hgetD_new]; exact hle)
          (by
            intro k hk
            rw [hgetD_old k (Nat.lt_trans hk hb)]
            exact hfirst k hk)
        rw [hpre1, happ] at hkey
        rw [hlen2]
        exact hkey

theorem bestIdxOf_spec (v : ℚ) (vt : List ℚ) :
    bestIdxOf (v :: vt) < (v :: vt).length ∧
    (∀ k, k < (v :: vt).length →
      (v :: vt).getD k 0 ≤ (v :: vt).getD (bestIdxOf (v :: vt)) 0) ∧
    (∀ k, k < bestIdxOf (v :: vt) →
      (v :: vt).getD k 0 < (v :: vt).getD (bestIdxOf (v :: vt)) 0) := by
  have h := scanBest_spec vt [v] 0 v (by simp) rfl
    (by intro k hk; simp at hk; subst hk; simp)
    (by intro k hk; exact absurd hk (Nat.not_lt_zero k))
  have hl : ([v] : List ℚ).length = 1 := rfl
  rw [hl] at h
  have happ : ([v] : List ℚ) ++ vt = v :: vt := rfl
  rw [happ] at h
  have hlen : 1 + vt.length = (v :: vt).length := by simp; omega
  rw [hlen] at h
  exact h

theorem worstIdxOf_spec (v : ℚ) (vt : List ℚ) :
    worstIdxOf (v :: vt) < (v :: vt).length ∧
    (∀ k, k < (v :: vt).length →
      (v :: vt).getD (worstIdxOf (v :: vt)) 0 ≤ (v :: vt).getD k 0) ∧
    (∀ k, k < worstIdxOf (v :: vt) →
      (v :: vt).getD (worstIdxOf (v :: vt)) 0 < (v :: vt).getD k 0) := by
  have h := scanWorst_spec vt [v] 0 v (by simp) rfl
    (by intro k hk; simp at hk; subst hk; simp)
    (by intro k hk; exact absurd hk (Nat.not_lt_zero k))
  have hl : ([v] : List ℚ).length = 1 := rfl
  rw [hl] at h
  have happ : ([v] : List ℚ) ++ vt = v :: vt := rfl
  rw [happ] at h
  have hlen : 1 + vt.length = (v :: vt).length := by simp; omega
  rw [hlen] at h
  exact h

/-- The first index whose value is maximal is unique. -/
theorem firstMax_unique (vals : List ℚ) (j r : Nat)
    (hjlen : j < vals.length)
    (hmaxj : ∀ k, k < vals.length → vals.getD k 0 ≤ vals.getD j 0)
    (hfirstj : ∀ k, k < j → vals.getD k 0 < vals.getD j 0)
    (hrlen : r < vals.length)
    (hmaxr : ∀ k, k < vals.length → vals.getD k 0 ≤ vals.getD r 0)
    (hfirstr : ∀ k, k < r → vals.getD k 0 < vals.getD r 0) : j = r := by
  rcases Nat.lt_trichotomy j r with h | h | h
  · exact absurd (hfirstr j h) (not_lt.mpr (hmaxj r hrlen))
  · exact h
  · exact absurd (hfirstj r h) (not_lt.mpr (hmaxr j hjlen))

/-- The first index whose value is minimal is unique. -/
theorem firstMin_unique (vals : List ℚ) (j r : Nat)
    (hjlen : j < vals.length)
    (hminj : ∀ k, k < vals.length → vals.getD j 0 ≤ vals.getD k 0)
    (hfirstj : ∀ k, k < j → vals.getD j 0 < vals.getD k 0)
    (hrlen : r < vals.length)
    (hminr : ∀ k, k < vals.length → vals.getD r 0 ≤ vals.getD k 0)
    (hfirstr : ∀ k, k < r → vals.getD r 0 < vals.getD k 0) : j = r := by
  rcases Nat.lt_trichotomy j r with h | h | h
  · exact absurd (hfirstr j h) (not_lt.mpr (hminj r hrlen))
  · exact h
  · exact absurd (hfirstj r h) (not_lt.mpr (hminr j hjlen))

/-! ### Bridging lemmas between the comparison list and its value list -/

theorem getD_map_aud :
    ∀ (l : List BankComparison) (k : Nat),
      (l.map (·.audToTwdAmount)).getD k 0 = (l.getD k dfltComp).audToTwdAmount := by
  intro l
  induction l with
  | nil => intro k; rfl
  | cons c rest ih =>
      intro k
      cases k with
      | zero => rfl
      | succ k => simpa using ih k

theorem isBest_getD_map_mk (u a : ℚ) :
    ∀ (banks : List BankRate) (j : Nat),
      ((banks.map (mkComparison u a)).getD j dfltComp).isBest = false := by
  intro banks
  induction banks with
  | nil => intro j; rfl
  | cons bk bks ih =>
      intro j
      cases j with
      | zero => rfl
      | succ j => simpa using ih j

theorem isWorst_getD_map_mk (u a : ℚ) :
    ∀ (banks : List BankRate) (j : Nat),
      ((banks.map (mkComparison u a)).getD j dfltComp).isWorst = false := by
  intro banks
  induction banks with
  | nil => intro j; rfl
  | cons bk bks ih =>
      intro j
      cases j with
      | zero => rfl
      | succ j => simpa using ih j

/-- Unfolding of the comparisons list for a non-empty bank list. -/
theorem bankComparisons_cons (input : CalculationInput) (bk : BankRate)
    (bks : List BankRate) :
    (calculateExchange input (bk :: bks)).bankComparisons =
      setFlags
        (bestIdxOf (((bk :: bks).map
          (mkComparison (usdNetRaw input) (audNetRaw input))).map (·.audToTwdAmount)))
        (worstIdxOf (((bk :: bks).map
          (mkComparison (usdNetRaw input) (audNetRaw input))).map (·.audToTwdAmount)))
        0 ((bk :: bks).map (mkComparison (usdNetRaw input) (audNetRaw input))) := by
  simp only [calculateExchange, usdNetRaw, audNetRaw, List.length_map, List.length_cons]
  rw [if_pos (Nat.succ_pos _)]

/-- Unfolding of the result for an empty bank list. -/
theorem calculateExchange_nil (input : CalculationInput) :
    calculateExchange input [] =
      { audNetAmount := round2 (audNetRaw input)
        usdAmount := round2 (audNetRaw input * input.audToUsdRate)
        usdFeeNtd := round2 (input.audFeeNtd * input.audToUsdRate)
        usdNetAmount := round2 (usdNetRaw input)
        bankComparisons := []
        bestBank := none
        worstBank := none } := rfl

theorem usdToTwd_flagAt (b w i : Nat) (c : BankComparison) :
    (flagAt b w i c).usdToTwdAmount = c.usdToTwdAmount := by
  by_cases h1 : i = b
  · subst h1
    by_cases h2 : i = w
    · subst h2; simp [flagAt]
    · simp [flagAt, h2]
  · by_cases h2 : i = w
    · subst h2; simp [flagAt, h1]
    · simp [flagAt, h1, h2]

theorem difference_flagAt (b w i : Nat) (c : BankComparison) :
    (flagAt b w i c).difference = c.difference := by
  by_cases h1 : i = b
  · subst h1
    by_cases h2 : i = w
    · subst h2; simp [flagAt]
    · simp [flagAt, h2]
  · by_cases h2 : i = w
    · subst h2; simp [flagAt, h1]
    · simp [flagAt, h1, h2]

theorem map_field_setFlags (b w : Nat) (f : BankComparison → ℚ)
    (hf : ∀ b2 w2 i c, f (flagAt b2 w2 i c) = f c) :
    ∀ (l : List BankComparison) (i : Nat),
      (setFlags b w i l).map f = l.map f := by
  intro l
  induction l with
  | nil => intro i; rfl
  | cons c rest ih => intro i; simp [setFlags, hf, ih]

/-- The usdToTwdAmount column of the result as a function of the raw totals. -/
theorem map_usdToTwd_calculateExchange (input : CalculationInput)
    (banks : List BankRate) :
    (calculateExchange input banks).bankComparisons.map (·.usdToTwdAmount)
      = banks.map (fun b =>
          round2 (usdNetRaw input * b.usdToTwdRate + b.inFeeNtd)) := by
  cases banks with
  | nil => rfl
  | cons bk bks =>
      rw [bankComparisons_cons, map_field_setFlags _ _ _ usdToTwd_flagAt,
        List.map_map]
      exact List.map_congr_left (fun bank _ => rfl)

/-- The audToTwdAmount column of the result as a function of the raw totals. -/
theorem map_audToTwd_calculateExchange (input : CalculationInput)
    (banks : List BankRate) :
    (calculateExchange input banks).bankComparisons.map (·.audToTwdAmount)
      = banks.map (fun b =>
          round2 (audNetRaw input * b.audToTwdRate + b.inFeeNtd)) := by
  cases banks with
  | nil => rfl
  | cons bk bks =>
      rw [bankComparisons_cons, map_field_setFlags _ _ _ audToTwd_flagAt,
        List.map_map]
      exact List.map_congr_left (fun bank _ => rfl)

/-- The difference column of the result as a function of the raw totals. -/
theorem map_difference_calculateExchange (input : CalculationInput)
    (banks : List BankRate) :
    (calculateExchange input banks).bankComparisons.map (·.difference)
      = banks.map (fun b =>
          round2 ((usdNetRaw input * b.usdToTwdRate + b.inFeeNtd)
            - (audNetRaw input * b.audToTwdRate + b.inFeeNtd))) := by
  cases banks with
  | nil => rfl
  | cons bk bks =>
      rw [bankComparisons_cons, map_field_setFlags _ _ _ difference_flagAt,
        List.map_map]
      exact List.map_congr_left (fun bank _ => rfl)

/-! ### Properties of updateFee -/

theorem map_updateFee_of_ignoreFee {α : Type} (g : BankRate → α)
    (hg : ∀ b f, g { b with inFeeNtd := f } = g b) :
    ∀ (banks : List BankRate) (i : Nat) (f : ℚ),
      (updateFee banks i f).map g = banks.map g := by
  intro banks
  induction banks with
  | nil => intro i f; rfl
  | cons bk bks ih =>
      intro i f
      cases i with
      | zero => simp [updateFee, hg]
      | succ i => simp [updateFee, ih i f]

theorem getD_map_mk_updateFee (u a : ℚ) :
    ∀ (banks : List BankRate) (i : Nat) (f : ℚ) (j : Nat), j ≠ i →
      ((updateFee banks i f).map (mkComparison u a)).getD j dfltComp
        = (banks.map (mkComparison u a)).getD j dfltComp := by
  intro banks
  induction banks with
  | nil => intro i f j _; rfl
  | cons bk bks ih =>
      intro i f j hij
      cases i with
      | zero =>
          cases j with
          | zero => exact absurd rfl hij
          | succ j => rfl
      | succ i =>
          cases j with
          | zero => rfl
          | succ j => simpa [updateFee] using ih i f j (fun h => hij (by omega))

/-- Unfolding of the comparisons list for any non-empty bank list. -/
theorem bankComparisons_eq (input : CalculationInput) (banks : List BankRate)
    (h : banks ≠ []) :
    (calculateExchange input banks).bankComparisons =
      setFlags
        (bestIdxOf ((banks.map
          (mkComparison (usdNetRaw input) (audNetRaw input))).map (·.audToTwdAmount)))
        (worstIdxOf ((banks.map
          (mkComparison (usdNetRaw input) (audNetRaw input))).map (·.audToTwdAmount)))
        0 (banks.map (mkComparison (usdNetRaw input) (audNetRaw input))) := by
  cases banks with
  | nil => exact absurd rfl h
  | cons bk bks => exact bankComparisons_cons input bk bks

/-! ### The claims -/

/-- C5: for every calculation input, when the bank list is empty the result
has bestBank = none, worstBank = none and an empty comparisons list. -/
theorem c5_empty_bank_list (input : CalculationInput) :
    (calculateExchange input []).bestBank = none ∧
    (calculateExchange input []).worstBank = none ∧
    (calculateExchange input []).bankComparisons = [] :=
  ⟨rfl, rfl, rfl⟩

/-- C7: for every input and bank list, the difference column equals the
intermediary-path raw total minus the direct-path raw total, rounded to two
decimals after the subtraction. -/
theorem c7_difference_of_raw_totals (input : CalculationInput)
    (banks : List BankRate) :
    (calculateExchange input banks).bankComparisons.map (·.difference)
      = banks.map (fun b =>
          round2 ((usdNetRaw input * b.usdToTwdRate + b.inFeeNtd)
            - (audNetRaw input * b.audToTwdRate + b.inFeeNtd))) :=
  map_difference_calculateExchange input banks

/-- C8: the transfer fee is deducted twice: the raw net intermediary amount
equals (audAmount - 2 * audFeeNtd) * audToUsdRate, and the reported
usdNetAmount is that value rounded to two decimals; the usdFeeNtd output is
the rate-converted fee, rounded. -/
theorem c8_fee_deducted_twice (input : CalculationInput) (banks : List BankRate) :
    (calculateExchange input banks).usdNetAmount
      = round2 ((input.audAmount - 2 * input.audFeeNtd) * input.audToUsdRate) ∧
    usdNetRaw input = (input.audAmount - 2 * input.audFeeNtd) * input.audToUsdRate ∧
    (calculateExchange input banks).usdFeeNtd
      = round2 (input.audFeeNtd * input.audToUsdRate) := by
  have h : (input.audAmount - input.audFeeNtd) * input.audToUsdRate
      - input.audFeeNtd * input.audToUsdRate
      = (input.audAmount - 2 * input.audFeeNtd) * input.audToUsdRate := by ring
  refine ⟨?_, ?_, rfl⟩
  · show round2 ((input.audAmount - input.audFeeNtd) * input.audToUsdRate
      - input.audFeeNtd * input.audToUsdRate) = _
    rw [h]
  · show (input.audAmount - input.audFeeNtd) * input.audToUsdRate
      - input.audFeeNtd * input.audToUsdRate = _
    rw [h]

/-- C9: the difference column never depends on any bank's fee: replacing
the fee of the bank at any position leaves every difference value
unchanged, because the fee cancels before rounding. -/
theorem c9_difference_ignores_fee (input : CalculationInput)
    (banks : List BankRate) (i : Nat) (f : ℚ) :
    (calculateExchange input (updateFee banks i f)).bankComparisons.map (·.difference)
      = (calculateExchange input banks).bankComparisons.map (·.difference) := by
  rw [map_difference_calculateExchange, map_difference_calculateExchange]
  have hfun : ∀ (l : List BankRate),
      l.map (fun b => round2 ((usdNetRaw input * b.usdToTwdRate + b.inFeeNtd)
          - (audNetRaw input * b.audToTwdRate + b.inFeeNtd)))
        = l.map (fun b => round2 (usdNetRaw input * b.usdToTwdRate
          - audNetRaw input * b.audToTwdRate)) := by
    intro l
    refine List.map_congr_left (fun b _ => ?_)
    have hb : (usdNetRaw input * b.usdToTwdRate + b.inFeeNtd)
        - (audNetRaw input * b.audToTwdRate + b.inFeeNtd)
        = usdNetRaw input * b.usdToTwdRate - audNetRaw input * b.audToTwdRate := by
      ring
    rw [hb]
  rw [hfun, hfun]
  exact map_updateFee_of_ignoreFee
    (fun b => round2 (usdNetRaw input * b.usdToTwdRate - audNetRaw input * b.audToTwdRate))
    (fun b f2 => rfl) banks i f

/-- C2 counterexample: on the end-to-end example input the raw intermediary
amount is 1992 x 0.6545 = 1303.764, not 1304.364, and the direct-path total
rounds to 43590.94, not 43591.84. -/
theorem c2_counterexample :
    audNetRaw c2input * c2input.audToUsdRate = 1303.764 ∧
    (1303.764 : ℚ) ≠ 1304.364 ∧
    ((calculateExchange c2input [c2bank]).bankComparisons.getD 0 dfltComp).audToTwdAmount
      = 43590.94 ∧
    (43590.94 : ℚ) ≠ 43591.84 := by
  refine ⟨by norm_num [audNetRaw, c2input], by norm_num, ?_, by norm_num⟩
  rw [bankComparisons_cons]
  simp only [List.map_cons, List.map_nil, setFlags, List.getD_cons_zero,
    audToTwd_flagAt]
  norm_num [mkComparison, round2, mathRound, audNetRaw, usdNetRaw, c2input, c2bank]

/-- C2 amended: for the end-to-end example input, the net source amount is
1992, the raw intermediary amount is 1992 x 0.6545 = 1303.764 (reported as
1303.76), and the direct-path total is 1992 x 21.883 = 43590.936, which
rounds to 43590.94. -/
theorem c2_end_to_end :
    (calculateExchange c2input [c2bank]).audNetAmount = 1992 ∧
    audNetRaw c2input = 1992 ∧
    audNetRaw c2input * c2input.audToUsdRate = 1303.764 ∧
    (calculateExchange c2input [c2bank]).usdAmount = 1303.76 ∧
    audNetRaw c2input * c2bank.audToTwdRate + c2bank.inFeeNtd = 43590.936 ∧
    ((calculateExchange c2input [c2bank]).bankComparisons.getD 0 dfltComp).audToTwdAmount
      = 43590.94 := by
  refine ⟨?_, by norm_num [audNetRaw, c2input], by norm_num [audNetRaw, c2input],
    ?_, by norm_num [audNetRaw, c2input, c2bank], ?_⟩
  · show round2 (c2input.audAmount - c2input.audFeeNtd) = 1992
    norm_num [round2, mathRound, c2input]
  · show round2 ((c2input.audAmount - c2input.audFeeNtd) * c2input.audToUsdRate) = 1303.76
    norm_num [round2, mathRound, c2input]
  · rw [bankComparisons_cons]
    simp only [List.map_cons, List.map_nil, setFlags, List.getD_cons_zero,
      audToTwd_flagAt]
    norm_num [mkComparison, round2, mathRound, audNetRaw, usdNetRaw, c2input, c2bank]

/-- C3 counterexample: a raw net source amount of -12.345 is reported as
-12.34, not -12.35: the negative half rounds toward positive infinity, not
away from zero. -/
theorem c3_counterexample :
    audNetRaw c3input = -12.345 ∧
    (calculateExchange c3input []).audNetAmount = -12.34 ∧
    (-12.34 : ℚ) ≠ -12.35 := by
  refine ⟨by norm_num [audNetRaw, c3input], ?_, by norm_num⟩
  show round2 (c3input.audAmount - c3input.audFeeNtd) = -12.34
  norm_num [round2, mathRound, c3input]

/-- C3 amended: every monetary output is round2 of its raw value, where
round2 multiplies by 100, rounds to the nearest integer with halves toward
positive infinity (away from zero only for nonnegative values), and divides
by 100: 12.345 rounds to 12.35, 12.344 to 12.34, and -12.345 to -12.34. -/
theorem c3_rounding (input : CalculationInput) (banks : List BankRate) :
    (calculateExchange input banks).audNetAmount = round2 (audNetRaw input) ∧
    (calculateExchange input banks).usdAmount
      = round2 (audNetRaw input * input.audToUsdRate) ∧
    (calculateExchange input banks).usdFeeNtd
      = round2 (input.audFeeNtd * input.audToUsdRate) ∧
    (calculateExchange input banks).usdNetAmount = round2 (usdNetRaw input) ∧
    (calculateExchange input banks).bankComparisons.map (·.usdToTwdAmount)
      = banks.map (fun b => round2 (usdNetRaw input * b.usdToTwdRate + b.inFeeNtd)) ∧
    (calculateExchange input banks).bankComparisons.map (·.audToTwdAmount)
      = banks.map (fun b => round2 (audNetRaw input * b.audToTwdRate + b.inFeeNtd)) ∧
    (calculateExchange input banks).bankComparisons.map (·.difference)
      = banks.map (fun b =>
          round2 ((usdNetRaw input * b.usdToTwdRate + b.inFeeNtd)
            - (audNetRaw input * b.audToTwdRate + b.inFeeNtd))) ∧
    (∀ x : ℚ, round2 x = ((⌊x * 100 + 1/2⌋ : ℤ) : ℚ) / 100) ∧
    round2 12.345 = 12.35 ∧
    round2 12.344 = 12.34 ∧
    round2 (-12.345) = -12.34 := by
  refine ⟨rfl, rfl, rfl, rfl, map_usdToTwd_calculateExchange input banks,
    map_audToTwd_calculateExchange input banks,
    map_difference_calculateExchange input banks, fun x => rfl,
    ?_, ?_, ?_⟩ <;> norm_num [round2, mathRound]

/-- C10: best selection compares the rounded totals: with raw direct totals
10.001 and 10.002 that both round to 10.00, the later bank has the strictly
greater raw total, yet the earlier bank is flagged best. -/
theorem c10_selection_uses_rounded_totals :
    audNetRaw unitInput * bankRateLow.audToTwdRate + bankRateLow.inFeeNtd
      < audNetRaw unitInput * bankRateHigh.audToTwdRate + bankRateHigh.inFeeNtd ∧
    round2 (audNetRaw unitInput * bankRateLow.audToTwdRate + bankRateLow.inFeeNtd)
      = round2 (audNetRaw unitInput * bankRateHigh.audToTwdRate + bankRateHigh.inFeeNtd) ∧
    ((calculateExchange unitInput
      [bankRateLow, bankRateHigh]).bankComparisons.getD 0 dfltComp).isBest = true ∧
    ((calculateExchange unitInput
      [bankRateLow, bankRateHigh]).bankComparisons.getD 1 dfltComp).isBest = false := by
  refine ⟨by norm_num [audNetRaw, unitInput, bankRateLow, bankRateHigh],
    by norm_num [round2, mathRound, audNetRaw, unitInput, bankRateLow, bankRateHigh],
    ?_, ?_⟩ <;>
  · rw [bankComparisons_cons]
    simp only [List.map_cons, List.map_nil, setFlags, List.getD_cons_zero,
      List.getD_cons_succ, isBest_flagAt, bestIdxOf, worstIdxOf, scanBest, scanWorst]
    norm_num [mkComparison, round2, mathRound, audNetRaw, usdNetRaw, unitInput,
      bankRateLow, bankRateHigh]

theorem aud_getD_setFlags (b w : Nat) :
    ∀ (l : List BankComparison) (i j : Nat),
      ((setFlags b w i l).getD j dfltComp).audToTwdAmount
        = (l.getD j dfltComp).audToTwdAmount := by
  intro l
  induction l with
  | nil => intro i j; rfl
  | cons c rest ih =>
      intro i j
      cases j with
      | zero => simpa [setFlags] using audToTwd_flagAt b w i c
      | succ j => simpa [setFlags] using ih (i + 1) j

theorem length_bankComparisons (input : CalculationInput) (banks : List BankRate) :
    (calculateExchange input banks).bankComparisons.length = banks.length := by
  cases banks with
  | nil => rfl
  | cons bk bks =>
      rw [bankComparisons_cons, length_setFlags]
      exact List.length_map _ _

/-- The direct-path total of the entry at any position is the rounded total
of the bank at that position (the flags pass does not touch it). -/
theorem aud_getD_comps (input : CalculationInput) (banks : List BankRate) (k : Nat) :
    ((calculateExchange input banks).bankComparisons.getD k dfltComp).audToTwdAmount
      = ((banks.map (mkComparison (usdNetRaw input) (audNetRaw input))).map
          (·.audToTwdAmount)).getD k 0 := by
  cases banks with
  | nil => cases k <;> rfl
  | cons bk bks =>
      rw [bankComparisons_cons, aud_getD_setFlags]
      exact (getD_map_aud _ k).symm

/-- An in-range entry carries the best flag exactly when its position is the
index computed by the best scan. -/
theorem isBest_iff_idx (input : CalculationInput) (banks : List BankRate) (j : Nat)
    (hj : j < banks.length) :
    (((calculateExchange input banks).bankComparisons.getD j dfltComp).isBest = true)
      ↔ j = bestIdxOf ((banks.map
          (mkComparison (usdNetRaw input) (audNetRaw input))).map (·.audToTwdAmount)) := by
  cases banks with
  | nil => exact absurd hj (Nat.not_lt_zero j)
  | cons bk bks =>
      rw [bankComparisons_cons]
      rw [isBest_getD_setFlags _ _ _ 0 j (by simpa using hj)]
      rw [isBest_getD_map_mk]
      simp only [Nat.zero_add]
      constructor
      · intro h
        by_contra hne
        rw [if_neg hne] at h
        exact Bool.false_ne_true h
      · intro h
        rw [if_pos h]

/-- An in-range entry carries the worst flag exactly when its position is
the index computed by the worst scan. -/
theorem isWorst_iff_idx (input : CalculationInput) (banks : List BankRate) (j : Nat)
    (hj : j < banks.length) :
    (((calculateExchange input banks).bankComparisons.getD j dfltComp).isWorst = true)
      ↔ j = worstIdxOf ((banks.map
          (mkComparison (usdNetRaw input) (audNetRaw input))).map (·.audToTwdAmount)) := by
  cases banks with
  | nil => exact absurd hj (Nat.not_lt_zero j)
  | cons bk bks =>
      rw [bankComparisons_cons]
      rw [isWorst_getD_setFlags _ _ _ 0 j (by simpa using hj)]
      rw [isWorst_getD_map_mk]
      simp only [Nat.zero_add]
      constructor
      · intro h
        by_contra hne
        rw [if_neg hne] at h
        exact Bool.false_ne_true h
      · intro h
        rw [if_pos h]

/-- C1: the comparisons list has the same length and order as the input
bank list (entry j is exactly the computed comparison of bank j, up to the
two flags); the number of best flags and of worst flags is 1 for a
non-empty bank list and 0 for an empty one. -/
theorem c1_comparisons_invariant (input : CalculationInput)
    (banks : List BankRate) :
    (calculateExchange input banks).bankComparisons.length = banks.length ∧
    (calculateExchange input banks).bankComparisons.map eraseFlags
      = banks.map (mkComparison (usdNetRaw input) (audNetRaw input)) ∧
    (calculateExchange input banks).bankComparisons.countP (·.isBest)
      = (if banks.length = 0 then 0 else 1) ∧
    (calculateExchange input banks).bankComparisons.countP (·.isWorst)
      = (if banks.length = 0 then 0 else 1) := by
  cases banks with
  | nil => exact ⟨rfl, rfl, rfl, rfl⟩
  | cons bk bks =>
      rw [bankComparisons_cons]
      have hflagsBest : ∀ c ∈ (bk :: bks).map
          (mkComparison (usdNetRaw input) (audNetRaw input)), c.isBest = false := by
        intro c hc
        obtain ⟨b0, _, rfl⟩ := List.mem_map.mp hc
        rfl
      have hflagsWorst : ∀ c ∈ (bk :: bks).map
          (mkComparison (usdNetRaw input) (audNetRaw input)), c.isWorst = false := by
        intro c hc
        obtain ⟨b0, _, rfl⟩ := List.mem_map.mp hc
        rfl
      have hbspec := bestIdxOf_spec
        ((mkComparison (usdNetRaw input) (audNetRaw input) bk).audToTwdAmount)
        ((bks.map (mkComparison (usdNetRaw input) (audNetRaw input))).map
          (·.audToTwdAmount))
      have hwspec := worstIdxOf_spec
        ((mkComparison (usdNetRaw input) (audNetRaw input) bk).audToTwdAmount)
        ((bks.map (mkComparison (usdNetRaw input) (audNetRaw input))).map
          (·.audToTwdAmount))
      refine ⟨?_, ?_, ?_, ?_⟩
      · rw [length_setFlags]
        exact List.length_map _ _
      · rw [map_eraseFlags_setFlags, List.map_map]
        exact List.map_congr_left (fun b _ => rfl)
      · rw [countP_isBest_setFlags _ _ _ 0 hflagsBest]
        rw [if_pos ?_, if_neg (by simp)]
        refine ⟨Nat.zero_le _, ?_⟩
        have h1 := hbspec.1
        simp only [List.map_cons, List.length_cons, List.length_map] at h1 ⊢
        omega
      · rw [countP_isWorst_setFlags _ _ _ 0 hflagsWorst]
        rw [if_pos ?_, if_neg (by simp)]
        refine ⟨Nat.zero_le _, ?_⟩
        have h1 := hwspec.1
        simp only [List.map_cons, List.length_cons, List.length_map] at h1 ⊢
        omega

/-- C6 counterexample: raising the fee of the first bank from 0 to 5 makes
it overtake the second bank, so the second bank's comparison entry changes
(its isBest flag flips from true to false and isWorst from false to true)
even though only the first bank's fee was edited. -/
theorem c6_counterexample :
    (calculateExchange unitInput
        (updateFee [bankRate1, bankRate2] 0 5)).bankComparisons.getD 1 dfltComp
      ≠ (calculateExchange unitInput
        [bankRate1, bankRate2]).bankComparisons.getD 1 dfltComp := by
  have h1 : updateFee [bankRate1, bankRate2] 0 5
      = [{ bankRate1 with inFeeNtd := 5 }, bankRate2] := rfl
  rw [h1, bankComparisons_cons, bankComparisons_cons]
  simp only [List.map_cons, List.map_nil, setFlags, List.getD_cons_succ,
    List.getD_cons_zero, bestIdxOf, worstIdxOf, scanBest, scanWorst]
  norm_num [flagAt, mkComparison, round2, mathRound, audNetRaw, usdNetRaw,
    unitInput, bankRate1, bankRate2]

/-- C6 amended: if two bank lists differ only in the fee field of the bank
at position i, then for every other position j the two results' comparison
entries at j agree on every field except possibly the isBest/isWorst flags
(which may move when the edited bank overtakes or falls behind another). -/
theorem c6_fee_frame_effect (input : CalculationInput) (banks : List BankRate)
    (i : Nat) (f : ℚ) (j : Nat) (hij : j ≠ i) :
    eraseFlags ((calculateExchange input
        (updateFee banks i f)).bankComparisons.getD j dfltComp)
      = eraseFlags ((calculateExchange input banks).bankComparisons.getD j dfltComp) := by
  cases banks with
  | nil =>
      cases i <;> rfl
  | cons bk bks =>
      have h1 : updateFee (bk :: bks) i f ≠ [] := by
        cases i <;> simp [updateFee]
      rw [bankComparisons_eq input _ h1,
        bankComparisons_eq input _ (List.cons_ne_nil bk bks)]
      rw [eraseFlags_getD_setFlags, eraseFlags_getD_setFlags]
      exact congrArg eraseFlags
        (getD_map_mk_updateFee (usdNetRaw input) (audNetRaw input)
          (bk :: bks) i f j hij)

/-- C6 witness: the frame property at the concrete two-bank example, with
the fee of bank 0 edited and bank 1 inspected. -/
theorem c6_fee_frame_effect_witness :
    (1 : Nat) ≠ 0 ∧
    eraseFlags ((calculateExchange unitInput
        (updateFee [bankRate1, bankRate2] 0 5)).bankComparisons.getD 1 dfltComp)
      = eraseFlags ((calculateExchange unitInput
        [bankRate1, bankRate2]).bankComparisons.getD 1 dfltComp) :=
  ⟨by omega, c6_fee_frame_effect unitInput [bankRate1, bankRate2] 0 5 1 (by omega)⟩

/-- C4: an in-range entry is flagged best exactly when it is the first
entry in input order whose rounded direct-path total is maximal, and
flagged worst exactly when it is the first whose rounded direct-path total
is minimal: earlier entries of equal value win because the scan uses
strict comparisons. -/
theorem c4_first_extremum_flags (input : CalculationInput) (banks : List BankRate)
    (j : Nat) (hj : j < (calculateExchange input banks).bankComparisons.length) :
    ((((calculateExchange input banks).bankComparisons.getD j dfltComp).isBest = true) ↔
      ((∀ k, k < (calculateExchange input banks).bankComparisons.length →
        ((calculateExchange input banks).bankComparisons.getD k dfltComp).audToTwdAmount
          ≤ ((calculateExchange input banks).bankComparisons.getD j dfltComp).audToTwdAmount) ∧
       (∀ k, k < j →
        ((calculateExchange input banks).bankComparisons.getD k dfltComp).audToTwdAmount
          < ((calculateExchange input banks).bankComparisons.getD j dfltComp).audToTwdAmount))) ∧
    ((((calculateExchange input banks).bankComparisons.getD j dfltComp).isWorst = true) ↔
      ((∀ k, k < (calculateExchange input banks).bankComparisons.length →
        ((calculateExchange input banks).bankComparisons.getD j dfltComp).audToTwdAmount
          ≤ ((calculateExchange input banks).bankComparisons.getD k dfltComp).audToTwdAmount) ∧
       (∀ k, k < j →
        ((calculateExchange input banks).bankComparisons.getD j dfltComp).audToTwdAmount
          < ((calculateExchange input banks).bankComparisons.getD k dfltComp).audToTwdAmount))) := by
  have hlen := length_bankComparisons input banks
  rw [hlen] at hj
  cases banks with
  | nil => exact absurd hj (Nat.not_lt_zero j)
  | cons bk bks =>
      have hcons : (((bk :: bks).map
            (mkComparison (usdNetRaw input) (audNetRaw input))).map (·.audToTwdAmount))
          = ((mkComparison (usdNetRaw input) (audNetRaw input) bk).audToTwdAmount)
            :: ((bks.map (mkComparison (usdNetRaw input) (audNetRaw input))).map
              (·.audToTwdAmount)) := by
        simp
      have hbspec := bestIdxOf_spec
        ((mkComparison (usdNetRaw input) (audNetRaw input) bk).audToTwdAmount)
        ((bks.map (mkComparison (usdNetRaw input) (audNetRaw input))).map
          (·.audToTwdAmount))
      have hwspec := worstIdxOf_spec
        ((mkComparison (usdNetRaw input) (audNetRaw input) bk).audToTwdAmount)
        ((bks.map (mkComparison (usdNetRaw input) (audNetRaw input))).map
          (·.audToTwdAmount))
      rw [← hcons] at hbspec hwspec
      have hvlen : (((bk :: bks).map
            (mkComparison (usdNetRaw input) (audNetRaw input))).map
              (·.audToTwdAmount)).length = (bk :: bks).length := by
        simp
      rw [hvlen] at hbspec hwspec
      have haud := aud_getD_comps input (bk :: bks)
      constructor
      · rw [isBest_iff_idx input (bk :: bks) j hj]
        constructor
        · intro hbi
          constructor
          · intro k hk
            rw [hlen] at hk
            rw [haud k, haud j, hbi]
            exact hbspec.2.1 k hk
          · intro k hk
            rw [haud k, haud j, hbi]
            exact hbspec.2.2 k (hbi ▸ hk)
        · intro hprops
          refine firstMax_unique (((bk :: bks).map
            (mkComparison (usdNetRaw input) (audNetRaw input))).map
              (·.audToTwdAmount)) j _ ?_ ?_ ?_ ?_ ?_ ?_
          · rw [hvlen]; exact hj
          · intro k hk
            rw [hvlen] at hk
            have := hprops.1 k (by rw [hlen]; exact hk)
            rwa [haud k, haud j] at this
          · intro k hk
            have := hprops.2 k hk
            rwa [haud k, haud j] at this
          · rw [hvlen]; exact hbspec.1
          · intro k hk
            rw [hvlen] at hk
            exact hbspec.2.1 k hk
          · intro k hk
            exact hbspec.2.2 k hk
      · rw [isWorst_iff_idx input (bk :: bks) j hj]
        constructor
        · intro hwi
          constructor
          · intro k hk
            rw [hlen] at hk
            rw [haud k, haud j, hwi]
            exact hwspec.2.1 k hk
          · intro k hk
            rw [haud k, haud j, hwi]
            exact hwspec.2.2 k (hwi ▸ hk)
        · intro hprops
          refine firstMin_unique (((bk :: bks).map
            (mkComparison (usdNetRaw input) (audNetRaw input))).map
              (·.audToTwdAmount)) j _ ?_ ?_ ?_ ?_ ?_ ?_
          · rw [hvlen]; exact hj
          · intro k hk
            rw [hvlen] at hk
            have := hprops.1 k (by rw [hlen]; exact hk)
            rwa [haud k, haud j] at this
          · intro k hk
            have := hprops.2 k hk
            rwa [haud k, haud j] at this
          · rw [hvlen]; exact hwspec.1
          · intro k hk
            rw [hvlen] at hk
            exact hwspec.2.1 k hk
          · intro k hk
            exact hwspec.2.2 k hk

/-- C4 witness: in the two-bank example with rounded totals 1 and 2, entry
1 is flagged best because it is the first maximal entry. -/
theorem c4_first_extremum_flags_witness :
    1 < (calculateExchange unitInput [bankRate1, bankRate2]).bankComparisons.length ∧
    ((calculateExchange unitInput
      [bankRate1, bankRate2]).bankComparisons.getD 1 dfltComp).isBest = true := by
  have hlen : (calculateExchange unitInput [bankRate1, bankRate2]).bankComparisons.length
      = 2 := by
    rw [length_bankComparisons]; rfl
  have hlt : 1 < (calculateExchange unitInput [bankRate1, bankRate2]).bankComparisons.length := by
    rw [hlen]; omega
  have h := c4_first_extremum_flags unitInput [bankRate1, bankRate2] 1 hlt
  have e0 : ((calculateExchange unitInput
      [bankRate1, bankRate2]).bankComparisons.getD 0 dfltComp).audToTwdAmount = 1 := by
    rw [aud_getD_comps]
    simp only [List.map_cons, List.map_nil, List.getD_cons_zero]
    norm_num [mkComparison, round2, mathRound, audNetRaw, usdNetRaw, unitInput, bankRate1]
  have e1 : ((calculateExchange unitInput
      [bankRate1, bankRate2]).bankComparisons.getD 1 dfltComp).audToTwdAmount = 2 := by
    rw [aud_getD_comps]
    simp only [List.map_cons, List.map_nil, List.getD_cons_succ, List.getD_cons_zero]
    norm_num [mkComparison, round2, mathRound, audNetRaw, usdNetRaw, unitInput, bankRate2]
  refine ⟨hlt, h.1.mpr ⟨?_, ?_⟩⟩
  · intro k hk
    rw [hlen] at hk
    interval_cases k
    · rw [e0, e1]; norm_num
    · rw [e1]
  · intro k hk
    interval_cases k
    rw [e0, e1]; norm_num

end Calculator
